import Mathlib

/-
Verification development for the live-transcription pipeline.

Shallow embedding of the two pipeline programs:
  * whisper_clear.py            — chunked capture, transcription adapter with
                                  deny-list filtering, and a 100 ms silence-check loop;
  * live_transcribe_streaming.py — streaming loop with a context ring buffer,
                                  an energy/variability voice-activity gate, and a
                                  trailing-word-dedup merge assembler.

Modelling conventions:
  * float samples are modelled as exact rationals (ℚ);
  * timestamps are rationals; whisper_clear reads two distinct clocks —
    `time.time()` (Unix epoch) in the main loop and `time.inputBufferAdcTime`
    (the PortAudio stream clock, whose origin is the stream's own timeline) in
    the audio callback — modelled as wall time `t` and `adcTime t0 t = t - t0`
    for a stream whose clock origin is wall time `t0`;
  * Python strings are Lean Strings; Python str.strip / str.lower / str.split
    are re-implemented over String.data (pyStrip / pyLower / pySplit) so that
    they reduce in the kernel;
  * transcript fragments handed to the streaming merge assembler are modelled as
    their whitespace-split word lists (the source splits each fragment with
    str.split before merging, and its words contain no whitespace);
  * the transcription engine is opaque: each processing cycle carries the
    engine's would-be response as an `Except Unit` value (error = raised
    exception inside the engine call);
  * file writes are modelled as emitted events / returned line lists.
-/

namespace Whisper

/-! ### Python string primitives -/

/-- Python `str.strip()`: remove leading and trailing whitespace. -/
def pyStrip (s : String) : String :=
  ⟨((s.data.dropWhile Char.isWhitespace).reverse.dropWhile Char.isWhitespace).reverse⟩

/-- Python `str.lower()` (character-wise; kernel-reducible unlike String.toLower). -/
def pyLower (s : String) : String :=
  ⟨s.data.map Char.toLower⟩

/-- Python `str.split()` with no separator: split on whitespace runs, dropping
empty pieces. -/
def pySplit (s : String) : List String :=
  ((s.data.splitOnP Char.isWhitespace).filter (fun l => l ≠ [])).map (fun l => ⟨l⟩)

/-! ### Embedding of whisper_clear.py -/

/-- Deny-list from whisper_clear.py (`REJECT_PHRASES`, lines 36–41). -/
def REJECT_PHRASES : List String :=
  ["thanks for watching", "please like and subscribe", "guitar and bass", "you"]

/-- Silence timeout of whisper_clear.py (`SILENCE_TIMEOUT = 3.0`, line 17). -/
def SILENCE_TIMEOUT_CLEAR : ℚ := 3

/-- Embedding of `transcribe_audio` (whisper_clear.py lines 47–77).  The opaque
engine call is the `Except` argument: `.error` models the call raising (caught
by the `try`/`except` which returns `""`), `.ok raw` models it returning text
`raw`.  On success the text is stripped, dropped to `""` when its lowercase
form contains any deny-list phrase as a substring, else capitalized and given a
trailing period when it does not already end in `.`, `!` or `?`. -/
def transcribe_audio (engineResult : Except Unit String) : String :=
  match engineResult with
  | Except.error _ => ""
  | Except.ok rawText =>
    let text := pyStrip rawText
    if REJECT_PHRASES.any (fun p => decide (p.data <:+: (pyLower text).data)) then ""
    else
      match text.data with
      | [] => text
      | c :: cs =>
        let capitalized : String := ⟨c.toUpper :: cs⟩
        if ['.', '!', '?'].contains ((c :: cs).getLastD c) then capitalized
        else capitalized ++ "."

/-- Mutable globals of whisper_clear.py relevant to the silence logic:
`current_text` and `last_update`. -/
structure ClearState where
  current_text : String
  last_update : ℚ
  deriving DecidableEq, Repr

/-- Reading of PortAudio's `inputBufferAdcTime` at wall-clock time `wall`, for
a stream whose clock origin (the wall time at which the stream clock reads 0)
is `t0`.  The stream clock counts seconds on its own timeline, not the Unix
epoch that `time.time()` uses, so this reading differs from `wall` by the
offset `t0`. -/
def adcTime (t0 wall : ℚ) : ℚ := wall - t0

/-- Embedding of the state update at the end of `audio_callback`
(whisper_clear.py lines 110–113): the transcribed text replaces
`current_text` and refreshes `last_update` only when it is non-empty and has
at least two words; otherwise the state is untouched.  The stored timestamp is
`time.inputBufferAdcTime` (line 113) — the callback's `time` parameter shadows
the `time` module, so `last_update` receives a PortAudio stream-clock reading
(`adcTime t0 wall`), *not* `time.time()`. -/
def clear_callback (st : ClearState) (text : String) (adcNow : ℚ) : ClearState :=
  if text ≠ "" ∧ 2 ≤ (pySplit text).length then ⟨text, adcNow⟩ else st

/-- One iteration of the silence check in `main` (whisper_clear.py lines
131–135), evaluated at wall-clock time `now`: when `current_text` is non-empty
and more than `SILENCE_TIMEOUT` seconds have passed since `last_update`, the
text is written to the transcript file (returned here as the emitted list) and
`current_text` is cleared.  The `[HH:MM:SS]` prefix of the written line is
abstracted away; the emitted element is the finalized text.  Note the check
reads `time.time()` (wall clock) for `now` while `last_update` holds a
stream-clock reading stored by the callback — the subtraction crosses clock
epochs (see claim C2). -/
def silenceCheck (st : ClearState) (now : ℚ) : ClearState × List String :=
  if st.current_text ≠ "" ∧ now - st.last_update > SILENCE_TIMEOUT_CLEAR then
    (⟨"", st.last_update⟩, [st.current_text])
  else (st, [])

/-- The silence-check loop of `main` (whisper_clear.py lines 129–137) run over
a given list of check instants (the loop body sleeps 0.1 s between instants),
collecting all emitted finalized lines in order. -/
def runChecks (st : ClearState) : List ℚ → ClearState × List String
  | [] => (st, [])
  | t :: ts =>
    let r := silenceCheck st t
    let rest := runChecks r.1 ts
    (rest.1, r.2 ++ rest.2)

/-- Embedding of the `finally` block of `main` (whisper_clear.py lines
143–147): on shutdown, a remaining non-empty `current_text` is appended to the
transcript (with its timestamp prefix) exactly once; nothing is appended
otherwise. -/
def clearFlush (ts : String) (st : ClearState) : List String :=
  if st.current_text ≠ "" then ["[" ++ ts ++ "] " ++ st.current_text] else []

/-! ### Embedding of live_transcribe_streaming.py -/

/-- Sample rate (line 15). -/
def SAMPLE_RATE : ℕ := 16000

/-- Samples per processing chunk: `int(SAMPLE_RATE * CHUNK_SEC)` with
`CHUNK_SEC = 0.5` (lines 16, 140–141). -/
def CHUNK_SAMPLES : ℕ := 8000

/-- Maximum context-buffer size in samples: `int(SAMPLE_RATE * BUFFER_SEC)`
with `BUFFER_SEC = 2.0` (lines 17, 135). -/
def MAX_CONTEXT_SAMPLES : ℕ := 32000

/-- Energy threshold of the voice-activity gate (`NOISE_THRESHOLD = 0.005`,
line 20). -/
def NOISE_THRESHOLD : ℚ := 5 / 1000

/-- Silence timeout before a line is finalized (`SILENCE_TIMEOUT = 5.0`,
line 23). -/
def SILENCE_TIMEOUT : ℚ := 5

/-- Arithmetic mean of a list of samples (`np.mean`); mean of the empty list is
0 (division by zero in ℚ). -/
def meanQ (c : List ℚ) : ℚ := c.sum / (c.length : ℚ)

/-- Mean of the squared samples (`np.mean(audio_chunk**2)`), the square of the
root-mean-square energy computed by `has_speech` (line 88). -/
def meanSqQ (c : List ℚ) : ℚ := meanQ (c.map (fun x => x ^ 2))

/-- Population variance (`np.std(audio_chunk)` squared, line 91). -/
def varQ (c : List ℚ) : ℚ := meanQ (c.map (fun x => (x - meanQ c) ^ 2))

/-- Executable form of `has_speech` (lines 85–94).  The source computes
`rms = sqrt(mean(chunk**2))` and `variability = std(chunk)` and returns
`rms > NOISE_THRESHOLD and variability > NOISE_THRESHOLD * 0.3`; since both
thresholds are non-negative and `sqrt` is strictly monotone, this is the same
gate expressed on the squares (the equivalence with the square-root form is
proved as the theorem for claim C7 below). -/
def has_speechB (c : List ℚ) : Bool :=
  decide (NOISE_THRESHOLD ^ 2 < meanSqQ c) &&
    decide ((NOISE_THRESHOLD * (3 / 10)) ^ 2 < varQ c)

/-- Embedding of `preprocess_audio` (lines 96–108): if the mean absolute
amplitude is below `NOISE_THRESHOLD`, the chunk is replaced by silence of the
same length, else returned unchanged. -/
def preprocess_audio (c : List ℚ) : List ℚ :=
  if (c.map (fun x => |x|)).sum / (c.length : ℚ) < NOISE_THRESHOLD then
    List.replicate c.length 0
  else c

/-- Word-level embedding of the non-final branch of `print_streaming`
(lines 67–79).  `acc` is the word list of `accumulated_text`, `frag` the word
list of the stripped fragment.  When `accumulated_text` is empty it is set to
the fragment; otherwise each fragment word is appended unless it equals
`existing_words[-1]`, where `existing_words` is the split of the accumulated
text computed once before the loop (so the comparison word stays fixed while
appending; `acc.getLast? ≠ some w` also covers the source's
`not existing_words` escape). -/
def mergeFragment (acc frag : List String) : List String :=
  if acc.isEmpty then frag
  else frag.foldl (fun a w => if acc.getLast? ≠ some w then a ++ [w] else a) acc

/-- Display/transcript line `f"[{ts}] {text}"` for an accumulated word list
(lines 57, 81). -/
def mkLine (ts : String) (acc : List String) : String :=
  "[" ++ ts ++ "] " ++ String.intercalate " " acc

/-- Context-buffer push with trim (lines 132–137): append the new block, then
if the length exceeds `maxC` keep only the last `maxC` samples
(`context_buf[-maxC:]`, oldest-first eviction; the configured `maxC` is
`MAX_CONTEXT_SAMPLES > 0`). -/
def pushContext (maxC : ℕ) (buf block : List ℚ) : List ℚ :=
  let b := buf ++ block
  if maxC < b.length then b.drop (b.length - maxC) else b

/-- State of the streaming loop: the two sample buffers plus the merge
assembler's globals (`accumulated_text` as a word list, `current_line`,
`last_speech_time`). -/
structure SState where
  buf : List ℚ
  context_buf : List ℚ
  accumulated : List String
  current_line : String
  last_speech_time : ℚ
  deriving DecidableEq, Repr

/-- External inputs consumed by one iteration of the streaming loop: the
dequeued audio block, the wall-clock time, the formatted timestamp string, and
the opaque engine's would-be response for this window — `.error` models
`model.transcribe` raising, `.ok ws` models it returning text whose stripped
word list is `ws` (so `ws = []` is a result that strips to empty text). -/
structure CycleIn where
  new_audio : List ℚ
  now : ℚ
  ts : String
  engine : Except Unit (List String)

/-- Observable side effects of the streaming loop: an invocation of the
transcription engine (with the preprocessed audio it is given) and an append
of a finalized line to the transcript file. -/
inductive SEvent where
  | transcribeCall (audio : List ℚ)
  | sinkAppend (line : String)
  deriving DecidableEq, Repr

/-- Context buffer after the push/trim step of a cycle (lines 132–137). -/
def nextContext (st : SState) (inp : CycleIn) : List ℚ :=
  pushContext MAX_CONTEXT_SAMPLES st.context_buf inp.new_audio

/-- The recent window tested by the gate:
`context_buf[-int(SAMPLE_RATE * CHUNK_SEC):]` (line 147). -/
def recentWindow (st : SState) (inp : CycleIn) : List ℚ :=
  (nextContext st inp).drop ((nextContext st inp).length - CHUNK_SAMPLES)

/-- One iteration of the streaming processing loop (lines 128–172).  The block
is appended to both buffers and the context buffer trimmed; when a full chunk
is available it is consumed from `buf`; when the context buffer holds a full
chunk the gate runs on the recent window.  If the gate fires,
`last_speech_time` is set to `now` and the engine is called on the
preprocessed context (an uncaught engine error — `.error` — propagates out of
the loop, whose only handler is for KeyboardInterrupt); a fragment with a
non-empty word list is merged and `current_line` refreshed.  If the gate does
not fire and the accumulated text is non-empty with the silence timeout
exceeded, the line is finalized: appended to the transcript, both
`accumulated_text` and `current_line` cleared, and the context buffer
emptied. -/
def fullCycle (st : SState) (inp : CycleIn) : Except Unit (SState × List SEvent) :=
  if CHUNK_SAMPLES ≤ (st.buf ++ inp.new_audio).length then
    if CHUNK_SAMPLES ≤ (nextContext st inp).length then
      if has_speechB (recentWindow st inp) then
        match inp.engine with
        | Except.error e => Except.error e
        | Except.ok frag =>
          if frag.isEmpty then
            Except.ok
              ({ st with
                  buf := (st.buf ++ inp.new_audio).drop CHUNK_SAMPLES,
                  context_buf := nextContext st inp,
                  last_speech_time := inp.now },
               [SEvent.transcribeCall (preprocess_audio (nextContext st inp))])
          else
            Except.ok
              ({ buf := (st.buf ++ inp.new_audio).drop CHUNK_SAMPLES,
                  context_buf := nextContext st inp,
                  accumulated := mergeFragment st.accumulated frag,
                  current_line := mkLine inp.ts (mergeFragment st.accumulated frag),
                  last_speech_time := inp.now },
               [SEvent.transcribeCall (preprocess_audio (nextContext st inp))])
      else if st.accumulated ≠ [] ∧ inp.now - st.last_speech_time > SILENCE_TIMEOUT then
        Except.ok
          ({ buf := (st.buf ++ inp.new_audio).drop CHUNK_SAMPLES,
              context_buf := [],
              accumulated := [],
              current_line := "",
              last_speech_time := st.last_speech_time },
           [SEvent.sinkAppend (mkLine inp.ts st.accumulated)])
      else
        Except.ok
          ({ st with
              buf := (st.buf ++ inp.new_audio).drop CHUNK_SAMPLES,
              context_buf := nextContext st inp },
           [])
    else
      Except.ok
        ({ st with
            buf := (st.buf ++ inp.new_audio).drop CHUNK_SAMPLES,
            context_buf := nextContext st inp },
         [])
  else
    Except.ok
      ({ st with
          buf := st.buf ++ inp.new_audio,
          context_buf := nextContext st inp },
       [])

/-- The streaming loop over a list of cycles, collecting all events; an engine
error aborts the run (the source has no handler for it). -/
def runStream (st : SState) : List CycleIn → Except Unit (SState × List SEvent)
  | [] => Except.ok (st, [])
  | i :: is =>
    match fullCycle st i with
    | Except.error e => Except.error e
    | Except.ok (st1, evs) =>
      match runStream st1 is with
      | Except.error e => Except.error e
      | Except.ok (st2, evs2) => Except.ok (st2, evs ++ evs2)

/-- Initial state of the streaming loop (lines 33–36, 124–125): empty buffers,
empty accumulated line, `last_speech_time = 0`. -/
def initS : SState := ⟨[], [], [], "", 0⟩

/-- Embedding of the KeyboardInterrupt handler (lines 174–181): on shutdown, a
non-empty `current_line` is appended to the transcript exactly once. -/
def streamFlush (st : SState) : List String :=
  if st.current_line ≠ "" then [st.current_line] else []

/-- Modelled from the words of claim C1 (for refinement comparison only, not
from the source): merge in which each new word is compared with the last word
of the accumulated line *at the moment that word is considered*, i.e. the
comparison target moves as words are appended. -/
def mergeSeqDedup (acc frag : List String) : List String :=
  frag.foldl (fun a w => if a.getLast? = some w then a else a ++ [w]) acc

/-! ### Helper lemmas -/

/-- The dedup fold of `print_streaming` with a fixed comparison word is an
append of the filtered fragment. -/
lemma foldl_dedup_eq (last? : Option String) :
    ∀ (frag a : List String),
      frag.foldl (fun a w => if last? ≠ some w then a ++ [w] else a) a
        = a ++ frag.filter (fun w => decide (last? ≠ some w)) := by
  intro frag
  induction frag with
  | nil => intro a; simp
  | cons w ws ih =>
    intro a
    by_cases h : last? ≠ some w
    · rw [List.foldl_cons, if_pos h, ih, List.filter_cons, if_pos (by simpa using h)]
      simp
    · rw [List.foldl_cons, if_neg h, ih, List.filter_cons, if_neg (by simpa using h)]

lemma mergeFragment_eq_append_filter (acc frag : List String) (h : acc ≠ []) :
    mergeFragment acc frag
      = acc ++ frag.filter (fun w => decide (acc.getLast? ≠ some w)) := by
  have hne : acc.isEmpty = false := by
    cases acc with
    | nil => exact absurd rfl h
    | cons a as => rfl
  unfold mergeFragment
  rw [hne]
  simp only [Bool.false_eq_true, if_false]
  exact foldl_dedup_eq acc.getLast? frag acc

lemma runChecks_of_empty (times : List ℚ) (st : ClearState) (h : st.current_text = "") :
    runChecks st times = (st, []) := by
  induction times with
  | nil => rfl
  | cons t ts ih =>
    simp only [runChecks, silenceCheck]
    rw [if_neg (by simp [h])]
    rw [ih]
    rfl

lemma runChecks_no_fire : ∀ (times : List ℚ) (st : ClearState),
    (∀ t ∈ times, t - st.last_update ≤ SILENCE_TIMEOUT_CLEAR) →
      runChecks st times = (st, []) := by
  intro times
  induction times with
  | nil => intro st _; rfl
  | cons t ts ih =>
    intro st h
    have hcond : ¬(st.current_text ≠ "" ∧ t - st.last_update > SILENCE_TIMEOUT_CLEAR) := by
      intro hc
      exact absurd hc.2 (not_lt.mpr (h t (by simp)))
    simp only [runChecks, silenceCheck]
    rw [if_neg hcond]
    rw [ih st (fun u hu => h u (by simp [hu]))]
    rfl

lemma runChecks_fires : ∀ (times : List ℚ) (st : ClearState),
    st.current_text ≠ "" →
    (∃ t ∈ times, t - st.last_update > SILENCE_TIMEOUT_CLEAR) →
      runChecks st times = (⟨"", st.last_update⟩, [st.current_text]) := by
  intro times
  induction times with
  | nil =>
    intro st _ hex
    simp at hex
  | cons t ts ih =>
    intro st hne hex
    by_cases hfire : t - st.last_update > SILENCE_TIMEOUT_CLEAR
    · simp only [runChecks, silenceCheck]
      rw [if_pos ⟨hne, hfire⟩]
      rw [runChecks_of_empty ts ⟨"", st.last_update⟩ rfl]
      rfl
    · have hex2 : ∃ u ∈ ts, u - st.last_update > SILENCE_TIMEOUT_CLEAR := by
        rcases hex with ⟨u, hu, hgt⟩
        rcases List.mem_cons.mp hu with h1 | h2
        · exact absurd (h1 ▸ hgt) hfire
        · exact ⟨u, h2, hgt⟩
      simp only [runChecks, silenceCheck]
      rw [if_neg (fun hc => hfire hc.2)]
      rw [ih st hne hex2]
      rfl

/-! ### Claim theorems -/

/-- C1 (corrected): while the assembler is ACTIVE, merging a fragment appends
exactly those fragment words that differ from the last word of the accumulated
line *as it stood before the merge began* (the comparison target is computed
once and does not move while appending), and the previously accumulated words
form an unchanged prefix of the result — no existing word is removed or
rewritten. -/
theorem merge_active_fixed_lookback (acc frag : List String) (h : acc ≠ []) :
    mergeFragment acc frag
        = acc ++ frag.filter (fun w => decide (acc.getLast? ≠ some w)) ∧
      acc <+: mergeFragment acc frag := by
  have he := mergeFragment_eq_append_filter acc frag h
  exact ⟨he, he ▸ ⟨_, rfl⟩⟩

theorem merge_active_fixed_lookback_witness :
    mergeFragment ["hello"] ["hello", "world"]
        = ["hello"]
            ++ (["hello", "world"].filter
                  (fun w => decide ((["hello"] : List String).getLast? ≠ some w))) ∧
      ["hello"] <+: mergeFragment ["hello"] ["hello", "world"] :=
  merge_active_fixed_lookback ["hello"] ["hello", "world"] (by decide)

/-- C1 counterexample: merging the fragment `["b", "b"]` onto the ACTIVE line
`["a"]` keeps both copies of `"b"` (the source compares against the pre-merge
last word `"a"` throughout), whereas the claimed merge — compare against the
last word at the moment each word is considered — would drop the second
`"b"`. -/
theorem merge_active_seq_dedup_counterexample :
    mergeFragment ["a"] ["b", "b"] = ["a", "b", "b"] ∧
      mergeSeqDedup ["a"] ["b", "b"] = ["a", "b"] := by
  constructor <;> decide

/-- C5 (confirmed): when the stripped engine text, lowercased, contains any
deny-list phrase as a substring, `transcribe_audio` returns the empty string,
and the callback's state update on an empty string leaves `current_text` and
`last_update` unchanged. -/
theorem deny_list_filters_fragment (raw : String) (st : ClearState) (now : ℚ)
    (h : REJECT_PHRASES.any
        (fun p => decide (p.data <:+: (pyLower (pyStrip raw)).data)) = true) :
    transcribe_audio (Except.ok raw) = "" ∧
      clear_callback st (transcribe_audio (Except.ok raw)) now = st := by
  have h1 : transcribe_audio (Except.ok raw) = "" := by
    simp only [transcribe_audio]
    rw [h]
    simp
  refine ⟨h1, ?_⟩
  rw [h1]
  simp [clear_callback]

theorem deny_list_filters_fragment_witness :
    transcribe_audio (Except.ok "Thanks for watching!") = "" ∧
      clear_callback ⟨"prev words", 7⟩ (transcribe_audio (Except.ok "Thanks for watching!")) 9
        = ⟨"prev words", 7⟩ :=
  deny_list_filters_fragment "Thanks for watching!" ⟨"prev words", 7⟩ 9 (by decide)

/-- C10 (confirmed): any engine text whose stripped, lowercased form contains
the substring `"you"` anywhere — including inside a longer word — makes
`transcribe_audio` return the empty string, silently dropping the whole
utterance. -/
theorem you_substring_drops_utterance (raw : String)
    (h : decide (("you".data : List Char) <:+: (pyLower (pyStrip raw)).data) = true) :
    transcribe_audio (Except.ok raw) = "" := by
  have hmem : "you" ∈ REJECT_PHRASES := by decide
  have hany : REJECT_PHRASES.any
      (fun p => decide (p.data <:+: (pyLower (pyStrip raw)).data)) = true :=
    List.any_eq_true.mpr ⟨"you", hmem, h⟩
  simp only [transcribe_audio]
  rw [hany]
  simp

theorem you_substring_drops_utterance_witness :
    transcribe_audio (Except.ok "That young man spoke") = "" :=
  you_substring_drops_utterance "That young man spoke" (by decide)

/-! ### Context-buffer lemmas -/

lemma pushContext_length (m : ℕ) (buf block : List ℚ) :
    (pushContext m buf block).length = min (buf.length + block.length) m := by
  simp only [pushContext]
  by_cases h : m < (buf ++ block).length
  · rw [if_pos h, List.length_drop]
    rw [List.length_append] at h ⊢
    omega
  · rw [if_neg h]
    rw [List.length_append] at h ⊢
    omega

lemma pushContext_suffix (m : ℕ) (buf block : List ℚ) :
    pushContext m buf block <:+ buf ++ block := by
  simp only [pushContext]
  by_cases h : m < (buf ++ block).length
  · rw [if_pos h]
    exact List.drop_suffix _ _
  · rw [if_neg h]

lemma suffix_append_right {a b : List ℚ} (t : List ℚ) (h : a <:+ b) :
    a ++ t <:+ b ++ t := by
  rcases h with ⟨u, rfl⟩
  exact ⟨u, by rw [List.append_assoc]⟩

lemma foldl_pushContext_length (m : ℕ) :
    ∀ (blocks : List (List ℚ)) (start : List ℚ), start.length ≤ m →
      ((blocks.foldl (pushContext m) start).length)
        = min (start.length + (blocks.map List.length).sum) m := by
  intro blocks
  induction blocks with
  | nil =>
    intro start h
    simp only [List.foldl_nil, List.map_nil, List.sum_nil]
    omega
  | cons b bs ih =>
    intro start h
    rw [List.foldl_cons, ih (pushContext m start b) (by rw [pushContext_length]; omega)]
    rw [pushContext_length]
    simp only [List.map_cons, List.sum_cons]
    omega

lemma foldl_pushContext_suffix (m : ℕ) :
    ∀ (blocks : List (List ℚ)) (start : List ℚ),
      blocks.foldl (pushContext m) start <:+ start ++ blocks.flatten := by
  intro blocks
  induction blocks with
  | nil =>
    intro start
    simp
  | cons b bs ih =>
    intro start
    rw [List.foldl_cons, List.flatten_cons]
    have h3 := (ih (pushContext m start b)).trans
      (suffix_append_right _ (pushContext_suffix m start b))
    rw [List.append_assoc] at h3
    exact h3

/-- C6 (confirmed): after each push (any prefix of the pushed block sequence),
the context buffer holds at most the configured maximum number of samples and
is a suffix of everything pushed so far (oldest-first eviction); and once the
total pushed samples exceed the maximum, its length is exactly the maximum. -/
theorem context_buffer_bound (m : ℕ) (blocks : List (List ℚ)) (n : ℕ) (_hm : 0 < m) :
    ((blocks.take n).foldl (pushContext m) []).length ≤ m ∧
      (blocks.take n).foldl (pushContext m) [] <:+ (blocks.take n).flatten ∧
      (m < ((blocks.take n).flatten).length →
        ((blocks.take n).foldl (pushContext m) []).length = m) := by
  have hlen := foldl_pushContext_length m (blocks.take n) [] (by simp)
  simp only [List.length_nil, Nat.zero_add] at hlen
  have hsuf := foldl_pushContext_suffix m (blocks.take n) []
  rw [List.nil_append] at hsuf
  have hjoin : ((blocks.take n).map List.length).sum = ((blocks.take n).flatten).length :=
    (List.length_flatten _).symm
  refine ⟨by rw [hlen]; omega, hsuf, ?_⟩
  intro hgt
  rw [← hjoin] at hgt
  rw [hlen]
  omega

theorem context_buffer_bound_witness :
    (([[(1 : ℚ), 2], [3]].take 2).foldl (pushContext 32000) []).length ≤ 32000 ∧
      ([[(1 : ℚ), 2], [3]].take 2).foldl (pushContext 32000) []
          <:+ ([[(1 : ℚ), 2], [3]].take 2).flatten ∧
      (32000 < (([[(1 : ℚ), 2], [3]].take 2).flatten).length →
        (([[(1 : ℚ), 2], [3]].take 2).foldl (pushContext 32000) []).length = 32000) :=
  context_buffer_bound 32000 [[1, 2], [3]] 2 (by norm_num)

/-- C7 (confirmed): the voice-activity gate fires exactly when the
root-mean-square energy `sqrt(mean(chunk²))` exceeds the energy threshold AND
the standard deviation `sqrt(variance(chunk))` exceeds the threshold times the
variance ratio 0.3. -/
theorem gate_iff_rms_and_std (c : List ℚ) :
    has_speechB c = true ↔
      ((NOISE_THRESHOLD : ℝ) < Real.sqrt (meanSqQ c : ℝ) ∧
        (NOISE_THRESHOLD : ℝ) * (3 / 10) < Real.sqrt (varQ c : ℝ)) := by
  have hcast : ((NOISE_THRESHOLD * (3 / 10) : ℚ) : ℝ)
      = (NOISE_THRESHOLD : ℝ) * (3 / 10) := by
    push_cast
    ring
  have key : ∀ t m : ℚ, 0 ≤ t → ((t : ℝ) < Real.sqrt (m : ℝ) ↔ t ^ 2 < m) := by
    intro t m ht
    rw [Real.lt_sqrt (by exact_mod_cast ht)]
    exact_mod_cast Iff.rfl
  simp only [has_speechB, Bool.and_eq_true, decide_eq_true_eq]
  rw [← hcast]
  rw [key NOISE_THRESHOLD (meanSqQ c) (by norm_num [NOISE_THRESHOLD]),
    key (NOISE_THRESHOLD * (3 / 10)) (varQ c) (by norm_num [NOISE_THRESHOLD])]

/-! ### A concrete speech-bearing window -/

/-- Concrete 8000-sample window alternating ±1/2 (one full processing chunk of
clearly audible signal): rms = 1/2 and std = 1/2, both far above the gate
thresholds. -/
def c0 : List ℚ := List.replicate 4000 (1 / 2) ++ List.replicate 4000 (-(1 / 2))

lemma c0_length : c0.length = 8000 := by
  rw [c0, List.length_append, List.length_replicate, List.length_replicate]

lemma meanSqQ_c0 : meanSqQ c0 = 1 / 4 := by
  unfold meanSqQ meanQ
  simp only [c0]
  rw [List.map_append, List.map_replicate, List.map_replicate, List.sum_append,
    List.sum_replicate, List.sum_replicate, nsmul_eq_mul, nsmul_eq_mul,
    List.length_append, List.length_replicate, List.length_replicate]
  norm_num

lemma meanQ_c0 : meanQ c0 = 0 := by
  unfold meanQ
  simp only [c0]
  rw [List.sum_append, List.sum_replicate, List.sum_replicate, nsmul_eq_mul, nsmul_eq_mul,
    List.length_append, List.length_replicate, List.length_replicate]
  norm_num

lemma varQ_c0 : varQ c0 = 1 / 4 := by
  unfold varQ
  rw [meanQ_c0]
  unfold meanQ
  simp only [c0]
  rw [List.map_append, List.map_replicate, List.map_replicate, List.sum_append,
    List.sum_replicate, List.sum_replicate, nsmul_eq_mul, nsmul_eq_mul,
    List.length_append, List.length_replicate, List.length_replicate]
  norm_num

lemma has_speechB_c0 : has_speechB c0 = true := by
  unfold has_speechB
  rw [meanSqQ_c0, varQ_c0]
  simp only [Bool.and_eq_true, decide_eq_true_eq]
  constructor <;> norm_num [NOISE_THRESHOLD]

theorem gate_iff_rms_and_std_witness :
    (NOISE_THRESHOLD : ℝ) < Real.sqrt (meanSqQ c0 : ℝ) ∧
      (NOISE_THRESHOLD : ℝ) * (3 / 10) < Real.sqrt (varQ c0 : ℝ) :=
  (gate_iff_rms_and_std c0).mp has_speechB_c0

lemma c0_abs_sum : (c0.map (fun x => |x|)).sum = 4000 := by
  simp only [c0]
  rw [List.map_append, List.map_replicate, List.map_replicate, List.sum_append,
    List.sum_replicate, List.sum_replicate, nsmul_eq_mul, nsmul_eq_mul]
  rw [abs_neg, abs_of_nonneg (by norm_num : (0 : ℚ) ≤ 1 / 2)]
  norm_num

lemma preprocess_c0 : preprocess_audio c0 = c0 := by
  unfold preprocess_audio
  rw [c0_abs_sum, c0_length]
  rw [if_neg (by norm_num [NOISE_THRESHOLD])]

lemma has_speechB_nil : has_speechB [] = false := by
  unfold has_speechB
  have h1 : meanSqQ [] = 0 := by simp [meanSqQ, meanQ]
  have h2 : ¬(NOISE_THRESHOLD ^ 2 < meanSqQ []) := by
    rw [h1]
    norm_num [NOISE_THRESHOLD]
  rw [decide_eq_false h2]
  rfl

/-! ### Branch lemmas for the streaming cycle -/

lemma fullCycle_short_buf (st : SState) (inp : CycleIn)
    (h1 : ¬CHUNK_SAMPLES ≤ (st.buf ++ inp.new_audio).length) :
    fullCycle st inp
      = Except.ok ({ st with
          buf := st.buf ++ inp.new_audio,
          context_buf := nextContext st inp }, []) := by
  unfold fullCycle
  rw [if_neg h1]

lemma fullCycle_short_ctx (st : SState) (inp : CycleIn)
    (h1 : CHUNK_SAMPLES ≤ (st.buf ++ inp.new_audio).length)
    (h2 : ¬CHUNK_SAMPLES ≤ (nextContext st inp).length) :
    fullCycle st inp
      = Except.ok ({ st with
          buf := (st.buf ++ inp.new_audio).drop CHUNK_SAMPLES,
          context_buf := nextContext st inp }, []) := by
  unfold fullCycle
  rw [if_pos h1, if_neg h2]

lemma fullCycle_speech_error (st : SState) (inp : CycleIn) (e : Unit)
    (h1 : CHUNK_SAMPLES ≤ (st.buf ++ inp.new_audio).length)
    (h2 : CHUNK_SAMPLES ≤ (nextContext st inp).length)
    (h3 : has_speechB (recentWindow st inp) = true)
    (h4 : inp.engine = Except.error e) :
    fullCycle st inp = Except.error e := by
  unfold fullCycle
  rw [if_pos h1, if_pos h2, h3, h4]
  rfl

lemma fullCycle_speech_empty (st : SState) (inp : CycleIn)
    (h1 : CHUNK_SAMPLES ≤ (st.buf ++ inp.new_audio).length)
    (h2 : CHUNK_SAMPLES ≤ (nextContext st inp).length)
    (h3 : has_speechB (recentWindow st inp) = true)
    (h4 : inp.engine = Except.ok []) :
    fullCycle st inp
      = Except.ok ({ st with
            buf := (st.buf ++ inp.new_audio).drop CHUNK_SAMPLES,
            context_buf := nextContext st inp,
            last_speech_time := inp.now },
          [SEvent.transcribeCall (preprocess_audio (nextContext st inp))]) := by
  unfold fullCycle
  rw [if_pos h1, if_pos h2, h3, h4]
  rfl

lemma fullCycle_speech_merge (st : SState) (inp : CycleIn) (w : String) (ws : List String)
    (h1 : CHUNK_SAMPLES ≤ (st.buf ++ inp.new_audio).length)
    (h2 : CHUNK_SAMPLES ≤ (nextContext st inp).length)
    (h3 : has_speechB (recentWindow st inp) = true)
    (h4 : inp.engine = Except.ok (w :: ws)) :
    fullCycle st inp
      = Except.ok (⟨(st.buf ++ inp.new_audio).drop CHUNK_SAMPLES, nextContext st inp,
            mergeFragment st.accumulated (w :: ws),
            mkLine inp.ts (mergeFragment st.accumulated (w :: ws)), inp.now⟩,
          [SEvent.transcribeCall (preprocess_audio (nextContext st inp))]) := by
  unfold fullCycle
  rw [if_pos h1, if_pos h2, h3, h4]
  rfl

lemma fullCycle_finalize (st : SState) (inp : CycleIn)
    (h1 : CHUNK_SAMPLES ≤ (st.buf ++ inp.new_audio).length)
    (h2 : CHUNK_SAMPLES ≤ (nextContext st inp).length)
    (h3 : has_speechB (recentWindow st inp) = false)
    (h4 : st.accumulated ≠ [] ∧ inp.now - st.last_speech_time > SILENCE_TIMEOUT) :
    fullCycle st inp
      = Except.ok (⟨(st.buf ++ inp.new_audio).drop CHUNK_SAMPLES, [], [], "",
            st.last_speech_time⟩,
          [SEvent.sinkAppend (mkLine inp.ts st.accumulated)]) := by
  unfold fullCycle
  rw [if_pos h1, if_pos h2, h3]
  rw [if_neg (by simp), if_pos h4]

lemma fullCycle_quiet (st : SState) (inp : CycleIn)
    (h1 : CHUNK_SAMPLES ≤ (st.buf ++ inp.new_audio).length)
    (h2 : CHUNK_SAMPLES ≤ (nextContext st inp).length)
    (h3 : has_speechB (recentWindow st inp) = false)
    (h4 : ¬(st.accumulated ≠ [] ∧ inp.now - st.last_speech_time > SILENCE_TIMEOUT)) :
    fullCycle st inp
      = Except.ok ({ st with
          buf := (st.buf ++ inp.new_audio).drop CHUNK_SAMPLES,
          context_buf := nextContext st inp }, []) := by
  unfold fullCycle
  rw [if_pos h1, if_pos h2, h3]
  rw [if_neg (by simp), if_neg h4]

/-! ### A concrete state in which the gate fires -/

/-- Concrete ACTIVE state: one full chunk of speech-bearing audio in both
buffers, accumulated line `["hello"]`, last speech at time 0. -/
def stSpeech : SState := ⟨c0, c0, ["hello"], mkLine "t0" ["hello"], 0⟩

/-- Cycle at time 1 with no new audio whose engine result strips to empty
text. -/
def inpEmptyFrag : CycleIn := ⟨[], 1, "t1", Except.ok []⟩

/-- Cycle at time 1 with no new audio whose engine call raises. -/
def inpError : CycleIn := ⟨[], 1, "t1", Except.error ()⟩

lemma pushContext_no_trim (m : ℕ) (buf block : List ℚ)
    (h : ¬m < (buf ++ block).length) : pushContext m buf block = buf ++ block := by
  simp only [pushContext]
  rw [if_neg h]

lemma pushContext_c0_nil : pushContext MAX_CONTEXT_SAMPLES c0 [] = c0 := by
  rw [pushContext_no_trim MAX_CONTEXT_SAMPLES c0 []
    (by rw [List.append_nil, c0_length]; norm_num [MAX_CONTEXT_SAMPLES])]
  rw [List.append_nil]

lemma stSpeech_buf_len (inp : CycleIn) (h : inp.new_audio = []) :
    CHUNK_SAMPLES ≤ (stSpeech.buf ++ inp.new_audio).length := by
  rw [h]
  show CHUNK_SAMPLES ≤ (c0 ++ []).length
  rw [List.append_nil, c0_length]
  norm_num [CHUNK_SAMPLES]

lemma stSpeech_ctx (inp : CycleIn) (h : inp.new_audio = []) :
    nextContext stSpeech inp = c0 := by
  unfold nextContext
  rw [h]
  exact pushContext_c0_nil

lemma stSpeech_ctx_len (inp : CycleIn) (h : inp.new_audio = []) :
    CHUNK_SAMPLES ≤ (nextContext stSpeech inp).length := by
  rw [stSpeech_ctx inp h, c0_length]
  norm_num [CHUNK_SAMPLES]

lemma stSpeech_recent (inp : CycleIn) (h : inp.new_audio = []) :
    recentWindow stSpeech inp = c0 := by
  unfold recentWindow
  rw [stSpeech_ctx inp h, c0_length]
  simp [CHUNK_SAMPLES]

lemma stSpeech_gate (inp : CycleIn) (h : inp.new_audio = []) :
    has_speechB (recentWindow stSpeech inp) = true := by
  rw [stSpeech_recent inp h]
  exact has_speechB_c0

lemma c0_drop_chunk : (c0 ++ ([] : List ℚ)).drop CHUNK_SAMPLES = [] := by
  rw [List.append_nil]
  rw [show CHUNK_SAMPLES = c0.length from by rw [c0_length]; rfl]
  exact List.drop_length c0

lemma fullCycle_stSpeech_empty :
    fullCycle stSpeech inpEmptyFrag
      = Except.ok (⟨[], c0, ["hello"], mkLine "t0" ["hello"], (1 : ℚ)⟩,
          [SEvent.transcribeCall c0]) := by
  rw [fullCycle_speech_empty stSpeech inpEmptyFrag (stSpeech_buf_len _ rfl)
    (stSpeech_ctx_len _ rfl) (stSpeech_gate _ rfl) rfl]
  rw [stSpeech_ctx _ rfl, preprocess_c0]
  have hbuf : (stSpeech.buf ++ inpEmptyFrag.new_audio).drop CHUNK_SAMPLES = [] :=
    c0_drop_chunk
  rw [hbuf]
  rfl

lemma fullCycle_initS_nil :
    fullCycle initS inpEmptyFrag = Except.ok (initS, []) := by
  rw [fullCycle_short_buf initS inpEmptyFrag (by simp [initS, inpEmptyFrag, CHUNK_SAMPLES])]
  rfl

/-! ### Claims C3 and C4 -/

/-- C3 counterexample: in the ACTIVE state `stSpeech` (accumulated line
`["hello"]`, last speech at 0), a cycle at time 1 whose fragment is empty (the
gate fires on the buffered audio but the engine result strips to no words)
leaves the accumulated line alone yet sets `last_speech_time` from 0 to 1 —
the state is *not* left entirely unchanged, so the silence timer is reset by
gate-detected speech even without an accepted fragment. -/
theorem empty_fragment_resets_timer_counterexample :
    fullCycle stSpeech inpEmptyFrag
        = Except.ok (⟨[], c0, ["hello"], mkLine "t0" ["hello"], (1 : ℚ)⟩,
            [SEvent.transcribeCall c0]) ∧
      stSpeech.last_speech_time = 0 :=
  ⟨fullCycle_stSpeech_empty, rfl⟩

/-- C3 (corrected): on a cycle whose fragment is empty, the MergeAssembler
state behaves as follows.  (1) If the voice-activity gate does not fire (and
the finalize condition does not hold), the accumulated line, current line and
last-speech timestamp are all unchanged.  (2) If the gate fires but the
adapter returns empty text, the accumulated and current lines are unchanged
but the last-speech timestamp IS reset to `now` — the silence timer measures
time since the last gate-detected speech, not the last accepted fragment. -/
theorem empty_fragment_cycle_effects (st : SState) (inp : CycleIn) (st1 : SState)
    (evs : List SEvent) (hrun : fullCycle st inp = Except.ok (st1, evs)) :
    (has_speechB (recentWindow st inp) = false →
      ¬(st.accumulated ≠ [] ∧ inp.now - st.last_speech_time > SILENCE_TIMEOUT) →
        st1.accumulated = st.accumulated ∧ st1.current_line = st.current_line ∧
          st1.last_speech_time = st.last_speech_time) ∧
    (CHUNK_SAMPLES ≤ (st.buf ++ inp.new_audio).length →
      CHUNK_SAMPLES ≤ (nextContext st inp).length →
      has_speechB (recentWindow st inp) = true →
      inp.engine = Except.ok [] →
        st1.accumulated = st.accumulated ∧ st1.current_line = st.current_line ∧
          st1.last_speech_time = inp.now) := by
  constructor
  · intro hgate htmo
    by_cases h1 : CHUNK_SAMPLES ≤ (st.buf ++ inp.new_audio).length
    · by_cases h2 : CHUNK_SAMPLES ≤ (nextContext st inp).length
      · rw [fullCycle_quiet st inp h1 h2 hgate htmo] at hrun
        injection hrun with h
        injection h with hst hevs
        subst hst
        exact ⟨rfl, rfl, rfl⟩
      · rw [fullCycle_short_ctx st inp h1 h2] at hrun
        injection hrun with h
        injection h with hst hevs
        subst hst
        exact ⟨rfl, rfl, rfl⟩
    · rw [fullCycle_short_buf st inp h1] at hrun
      injection hrun with h
      injection h with hst hevs
      subst hst
      exact ⟨rfl, rfl, rfl⟩
  · intro h1 h2 h3 h4
    rw [fullCycle_speech_empty st inp h1 h2 h3 h4] at hrun
    injection hrun with h
    injection h with hst hevs
    subst hst
    exact ⟨rfl, rfl, rfl⟩

theorem empty_fragment_cycle_effects_witness :
    ((⟨[], c0, ["hello"], mkLine "t0" ["hello"], (1 : ℚ)⟩ : SState).accumulated
          = stSpeech.accumulated ∧
        (⟨[], c0, ["hello"], mkLine "t0" ["hello"], (1 : ℚ)⟩ : SState).current_line
          = stSpeech.current_line ∧
        (⟨[], c0, ["hello"], mkLine "t0" ["hello"], (1 : ℚ)⟩ : SState).last_speech_time
          = inpEmptyFrag.now) ∧
      (initS.accumulated = initS.accumulated ∧ initS.current_line = initS.current_line ∧
        initS.last_speech_time = initS.last_speech_time) :=
  ⟨(empty_fragment_cycle_effects stSpeech inpEmptyFrag _ _ fullCycle_stSpeech_empty).2
      (stSpeech_buf_len _ rfl) (stSpeech_ctx_len _ rfl) (stSpeech_gate _ rfl) rfl,
    (empty_fragment_cycle_effects initS inpEmptyFrag initS [] fullCycle_initS_nil).1
      (by
        have hrw : recentWindow initS inpEmptyFrag = [] := rfl
        rw [hrw]
        exact has_speechB_nil)
      (by simp [initS])⟩

/-- C4 counterexample: in the ACTIVE state `stSpeech`, a cycle whose
transcription call raises makes the streaming processing loop itself error out
(`Except.error`) — the loop's only handler is for KeyboardInterrupt, so the
window's fragment is not treated as empty and processing does not continue. -/
theorem engine_fault_crashes_stream_counterexample :
    fullCycle stSpeech inpError = Except.error () :=
  fullCycle_speech_error stSpeech inpError () (stSpeech_buf_len _ rfl)
    (stSpeech_ctx_len _ rfl) (stSpeech_gate _ rfl) rfl

/-- C4 (corrected): in whisper_clear, an engine fault is caught by
`transcribe_audio` and treated as an empty fragment, leaving the callback
state unchanged (no merge, no crash).  In live_transcribe_streaming the
`model.transcribe` call is unguarded: when the gate has fired and the engine
raises, the error propagates out of the processing loop. -/
theorem engine_fault_amended (e : Unit) (cst : ClearState) (now : ℚ)
    (st : SState) (inp : CycleIn) :
    (transcribe_audio (Except.error e) = "" ∧
      clear_callback cst (transcribe_audio (Except.error e)) now = cst) ∧
    (CHUNK_SAMPLES ≤ (st.buf ++ inp.new_audio).length →
      CHUNK_SAMPLES ≤ (nextContext st inp).length →
      has_speechB (recentWindow st inp) = true →
      inp.engine = Except.error e →
        fullCycle st inp = Except.error e) := by
  constructor
  · have h1 : transcribe_audio (Except.error e) = "" := rfl
    refine ⟨h1, ?_⟩
    rw [h1]
    simp [clear_callback]
  · intro h1 h2 h3 h4
    exact fullCycle_speech_error st inp e h1 h2 h3 h4

theorem engine_fault_amended_witness :
    ((transcribe_audio (Except.error ()) = "" ∧
        clear_callback ⟨"kept text", 4⟩ (transcribe_audio (Except.error ())) 9
          = ⟨"kept text", 4⟩)) ∧
      fullCycle stSpeech inpError = Except.error () :=
  ⟨(engine_fault_amended () ⟨"kept text", 4⟩ 9 stSpeech inpError).1,
    (engine_fault_amended () ⟨"kept text", 4⟩ 9 stSpeech inpError).2
      (stSpeech_buf_len _ rfl) (stSpeech_ctx_len _ rfl) (stSpeech_gate _ rfl) rfl⟩

/-! ### Run-level lemmas -/

lemma runStream_step (st : SState) (i : CycleIn) (is : List CycleIn) (stm st2 : SState)
    (evs1 evs2 : List SEvent) (h1 : fullCycle st i = Except.ok (stm, evs1))
    (h2 : runStream stm is = Except.ok (st2, evs2)) :
    runStream st (i :: is) = Except.ok (st2, evs1 ++ evs2) := by
  simp only [runStream, h1, h2]

/-- Invariant tying `current_line` to `accumulated_text`: both empty, or both
set together by the same `print_streaming` call. -/
def LineInv (st : SState) : Prop :=
  (st.accumulated = [] ∧ st.current_line = "") ∨
    (st.accumulated ≠ [] ∧ ∃ ts, st.current_line = mkLine ts st.accumulated)

lemma mergeFragment_ne_nil (acc : List String) (w : String) (ws : List String) :
    mergeFragment acc (w :: ws) ≠ [] := by
  cases acc with
  | nil => simp [mergeFragment]
  | cons a as =>
    rw [mergeFragment_eq_append_filter (a :: as) (w :: ws) (by simp)]
    simp

lemma mkLine_ne_empty (ts : String) (acc : List String) : mkLine ts acc ≠ "" := by
  intro h
  have hd := congrArg String.data h
  simp [mkLine] at hd

lemma lineInv_fullCycle (st : SState) (inp : CycleIn) (st1 : SState) (evs : List SEvent)
    (hrun : fullCycle st inp = Except.ok (st1, evs)) (hinv : LineInv st) : LineInv st1 := by
  by_cases h1 : CHUNK_SAMPLES ≤ (st.buf ++ inp.new_audio).length
  · by_cases h2 : CHUNK_SAMPLES ≤ (nextContext st inp).length
    · by_cases h3 : has_speechB (recentWindow st inp) = true
      · cases hengine : inp.engine with
        | error e =>
          rw [fullCycle_speech_error st inp e h1 h2 h3 hengine] at hrun
          simp at hrun
        | ok frag =>
          cases frag with
          | nil =>
            rw [fullCycle_speech_empty st inp h1 h2 h3 hengine] at hrun
            injection hrun with h
            injection h with hst hevs
            subst hst
            exact hinv
          | cons w ws =>
            rw [fullCycle_speech_merge st inp w ws h1 h2 h3 hengine] at hrun
            injection hrun with h
            injection h with hst hevs
            subst hst
            exact Or.inr ⟨mergeFragment_ne_nil _ _ _, inp.ts, rfl⟩
      · have h3f : has_speechB (recentWindow st inp) = false := by
          cases hsb : has_speechB (recentWindow st inp) with
          | false => rfl
          | true => exact absurd hsb h3
        by_cases h4 : st.accumulated ≠ [] ∧ inp.now - st.last_speech_time > SILENCE_TIMEOUT
        · rw [fullCycle_finalize st inp h1 h2 h3f h4] at hrun
          injection hrun with h
          injection h with hst hevs
          subst hst
          exact Or.inl ⟨rfl, rfl⟩
        · rw [fullCycle_quiet st inp h1 h2 h3f h4] at hrun
          injection hrun with h
          injection h with hst hevs
          subst hst
          exact hinv
    · rw [fullCycle_short_ctx st inp h1 h2] at hrun
      injection hrun with h
      injection h with hst hevs
      subst hst
      exact hinv
  · rw [fullCycle_short_buf st inp h1] at hrun
    injection hrun with h
    injection h with hst hevs
    subst hst
    exact hinv

lemma lineInv_runStream : ∀ (inputs : List CycleIn) (st st1 : SState) (evs : List SEvent),
    runStream st inputs = Except.ok (st1, evs) → LineInv st → LineInv st1 := by
  intro inputs
  induction inputs with
  | nil =>
    intro st st1 evs h hinv
    injection h with h
    injection h with hst hevs
    subst hst
    exact hinv
  | cons i is ih =>
    intro st st1 evs h hinv
    cases hc : fullCycle st i with
    | error e =>
      rw [show runStream st (i :: is) = Except.error e from by simp only [runStream, hc]] at h
      simp at h
    | ok p =>
      obtain ⟨stm, evs1⟩ := p
      cases hr : runStream stm is with
      | error e =>
        rw [show runStream st (i :: is) = Except.error e from by
          simp only [runStream, hc, hr]] at h
        simp at h
      | ok q =>
        obtain ⟨st2, evs2⟩ := q
        rw [runStream_step st i is stm st2 evs1 evs2 hc hr] at h
        injection h with h
        injection h with hst hevs
        subst hst
        exact ih stm st2 evs2 hr (lineInv_fullCycle st i stm evs1 hc hinv)

/-! ### Claim C8 -/

/-- C8 (confirmed): on shutdown after any run of the streaming loop from the
initial state, a non-empty accumulated line is flushed as exactly one
transcript line `[ts] <accumulated text>` (the KeyboardInterrupt handler
writes `current_line`, which the invariant ties to the accumulated words), and
nothing is flushed when the accumulated line is empty; likewise whisper_clear's
`finally` block appends exactly one timestamped line when `current_text` is
non-empty and nothing otherwise. -/
theorem shutdown_flushes_accumulated (inputs : List CycleIn) (st1 : SState)
    (evs : List SEvent) (ts : String) (cst : ClearState)
    (hrun : runStream initS inputs = Except.ok (st1, evs)) :
    ((st1.accumulated ≠ [] → ∃ u, streamFlush st1 = [mkLine u st1.accumulated]) ∧
      (st1.accumulated = [] → streamFlush st1 = [])) ∧
    ((cst.current_text ≠ "" →
        clearFlush ts cst = ["[" ++ ts ++ "] " ++ cst.current_text]) ∧
      (cst.current_text = "" → clearFlush ts cst = [])) := by
  have hinv : LineInv st1 :=
    lineInv_runStream inputs initS st1 evs hrun (Or.inl ⟨rfl, rfl⟩)
  refine ⟨⟨?_, ?_⟩, ?_, ?_⟩
  · intro hne
    rcases hinv with ⟨ha, _⟩ | ⟨_, u, hcl⟩
    · exact absurd ha hne
    · refine ⟨u, ?_⟩
      unfold streamFlush
      rw [hcl, if_pos (mkLine_ne_empty u st1.accumulated)]
  · intro hempty
    rcases hinv with ⟨_, hcl⟩ | ⟨hne, _⟩
    · unfold streamFlush
      rw [hcl]
      simp
    · exact absurd hempty hne
  · intro hne
    unfold clearFlush
    rw [if_pos hne]
  · intro hempty
    unfold clearFlush
    rw [if_neg (by simp [hempty])]

/-- Cycle from the initial state carrying a full chunk of speech audio whose
engine result is the single word `"hello"`. -/
def inpHello : CycleIn := ⟨c0, 1, "t1", Except.ok ["hello"]⟩

lemma fullCycle_initS_hello :
    fullCycle initS inpHello
      = Except.ok (⟨[], c0, ["hello"], mkLine "t1" ["hello"], (1 : ℚ)⟩,
          [SEvent.transcribeCall c0]) := by
  have h1 : CHUNK_SAMPLES ≤ (initS.buf ++ inpHello.new_audio).length := by
    show CHUNK_SAMPLES ≤ (([] : List ℚ) ++ c0).length
    rw [List.nil_append, c0_length]
    norm_num [CHUNK_SAMPLES]
  have hctx : nextContext initS inpHello = c0 := by
    show pushContext MAX_CONTEXT_SAMPLES [] c0 = c0
    rw [pushContext_no_trim MAX_CONTEXT_SAMPLES [] c0
      (by rw [List.nil_append, c0_length]; norm_num [MAX_CONTEXT_SAMPLES])]
    rw [List.nil_append]
  have h2 : CHUNK_SAMPLES ≤ (nextContext initS inpHello).length := by
    rw [hctx, c0_length]
    norm_num [CHUNK_SAMPLES]
  have h3 : has_speechB (recentWindow initS inpHello) = true := by
    have hrec : recentWindow initS inpHello = c0 := by
      unfold recentWindow
      rw [hctx, c0_length]
      simp [CHUNK_SAMPLES]
    rw [hrec]
    exact has_speechB_c0
  rw [fullCycle_speech_merge initS inpHello "hello" [] h1 h2 h3 rfl]
  rw [hctx, preprocess_c0]
  have hbuf : (initS.buf ++ inpHello.new_audio).drop CHUNK_SAMPLES = [] := by
    show ((([] : List ℚ) ++ c0)).drop CHUNK_SAMPLES = []
    rw [List.nil_append, show CHUNK_SAMPLES = c0.length from by rw [c0_length]; rfl]
    exact List.drop_length c0
  rw [hbuf]
  rfl

lemma runStream_hello :
    runStream initS [inpHello]
      = Except.ok (⟨[], c0, ["hello"], mkLine "t1" ["hello"], (1 : ℚ)⟩,
          [SEvent.transcribeCall c0]) := by
  have h := runStream_step initS inpHello [] _ _ [SEvent.transcribeCall c0] []
    fullCycle_initS_hello rfl
  simpa using h

theorem shutdown_flushes_accumulated_witness :
    (∃ u, streamFlush ⟨[], c0, ["hello"], mkLine "t1" ["hello"], (1 : ℚ)⟩
        = [mkLine u (⟨[], c0, ["hello"], mkLine "t1" ["hello"], (1 : ℚ)⟩ : SState).accumulated]) ∧
      clearFlush "09:00:00" ⟨"testing one two", 0⟩
        = ["[" ++ "09:00:00" ++ "] " ++ "testing one two"] :=
  ⟨(shutdown_flushes_accumulated [inpHello] _ _ "x" ⟨"x", 0⟩ runStream_hello).1.1 (by decide),
    (shutdown_flushes_accumulated [] initS [] "09:00:00" ⟨"testing one two", 0⟩ rfl).2.1
      (by decide)⟩

/-! ### Claim C9 -/

lemma has_speechB_eq_false_of_meanSq_le (w : List ℚ)
    (h : meanSqQ w ≤ NOISE_THRESHOLD ^ 2) : has_speechB w = false := by
  unfold has_speechB
  rw [decide_eq_false (not_lt.mpr h)]
  rfl

lemma runStream_quiet : ∀ (inputs : List CycleIn) (st : SState) (pre : List ℚ),
    st.accumulated = [] → st.context_buf <:+ pre →
    (∀ w : List ℚ, w <:+: pre ++ (inputs.map CycleIn.new_audio).flatten →
        w.length = CHUNK_SAMPLES → meanSqQ w ≤ NOISE_THRESHOLD ^ 2) →
    ∃ st1, runStream st inputs = Except.ok (st1, []) ∧ st1.accumulated = [] ∧
      st1.context_buf <:+ pre ++ (inputs.map CycleIn.new_audio).flatten := by
  intro inputs
  induction inputs with
  | nil =>
    intro st pre hacc hsuf _
    refine ⟨st, rfl, hacc, ?_⟩
    simpa using hsuf
  | cons i is ih =>
    intro st pre hacc hsuf hq
    have hctxsuf : nextContext st i <:+ pre ++ i.new_audio :=
      (pushContext_suffix _ _ _).trans (suffix_append_right i.new_audio hsuf)
    have hne : ¬(st.accumulated ≠ [] ∧ i.now - st.last_speech_time > SILENCE_TIMEOUT) := by
      rw [hacc]
      simp
    have hstep : ∃ b, fullCycle st i
        = Except.ok ({ st with buf := b, context_buf := nextContext st i }, []) := by
      by_cases h1 : CHUNK_SAMPLES ≤ (st.buf ++ i.new_audio).length
      · by_cases h2 : CHUNK_SAMPLES ≤ (nextContext st i).length
        · have hreclen : (recentWindow st i).length = CHUNK_SAMPLES := by
            unfold recentWindow
            rw [List.length_drop]
            omega
          have hrecinfix : recentWindow st i
              <:+: pre ++ ((i :: is).map CycleIn.new_audio).flatten := by
            have hsx : recentWindow st i <:+ pre ++ i.new_audio := by
              have hd : recentWindow st i <:+ nextContext st i := by
                unfold recentWindow
                exact List.drop_suffix _ _
              exact hd.trans hctxsuf
            rcases hsx with ⟨u, hu⟩
            refine ⟨u, (is.map CycleIn.new_audio).flatten, ?_⟩
            rw [List.map_cons, List.flatten_cons]
            calc u ++ recentWindow st i ++ (is.map CycleIn.new_audio).flatten
                = (u ++ recentWindow st i) ++ (is.map CycleIn.new_audio).flatten := rfl
              _ = (pre ++ i.new_audio) ++ (is.map CycleIn.new_audio).flatten := by rw [hu]
              _ = pre ++ (i.new_audio ++ (is.map CycleIn.new_audio).flatten) := by
                  rw [List.append_assoc]
          have hgate : has_speechB (recentWindow st i) = false :=
            has_speechB_eq_false_of_meanSq_le _ (hq _ hrecinfix hreclen)
          exact ⟨_, fullCycle_quiet st i h1 h2 hgate hne⟩
        · exact ⟨_, fullCycle_short_ctx st i h1 h2⟩
      · exact ⟨_, fullCycle_short_buf st i h1⟩
    obtain ⟨b, hcyc⟩ := hstep
    obtain ⟨st1, hrun1, hacc1, hsuf1⟩ :=
      ih { st with buf := b, context_buf := nextContext st i } (pre ++ i.new_audio) hacc
        hctxsuf
        (fun w hw hl => hq w
          (by
            rw [List.map_cons, List.flatten_cons, ← List.append_assoc]
            exact hw)
          hl)
    refine ⟨st1, ?_, hacc1, ?_⟩
    · have hr := runStream_step st i is _ st1 [] [] hcyc hrun1
      simpa using hr
    · rw [List.map_cons, List.flatten_cons, ← List.append_assoc]
      exact hsuf1

/-- C9 (confirmed): if every full-chunk window of the pushed audio stream has
mean-square energy at most the energy threshold squared (i.e. rms below the
threshold, so the voice-activity gate can never fire), then the streaming loop
runs from the initial state with no events at all — the transcription engine
is never invoked and no finalized line is ever appended — and the accumulated
line stays empty. -/
theorem below_threshold_never_transcribes (inputs : List CycleIn)
    (hq : ∀ w : List ℚ, w <:+: (inputs.map CycleIn.new_audio).flatten →
        w.length = CHUNK_SAMPLES → meanSqQ w ≤ NOISE_THRESHOLD ^ 2) :
    (runStream initS inputs).toOption.map (fun p => (p.1.accumulated, p.2))
      = some ([], []) := by
  obtain ⟨st1, h1, h2, _⟩ :=
    runStream_quiet inputs initS [] rfl List.suffix_rfl
      (fun w hw hl => hq w (by rwa [List.nil_append] at hw) hl)
  rw [h1]
  show some (st1.accumulated, ([] : List SEvent)) = some ([], [])
  rw [h2]

/-- Quiet cycle: one full chunk of digital silence with an (unused) engine
response. -/
def inpQuiet : CycleIn := ⟨List.replicate 8000 0, 0, "tq", Except.ok []⟩

lemma meanSqQ_of_all_zero (w : List ℚ) (hz : ∀ x ∈ w, x = 0) : meanSqQ w = 0 := by
  unfold meanSqQ meanQ
  have hs : (w.map (fun x => x ^ 2)).sum = 0 := by
    apply List.sum_eq_zero
    intro y hy
    rcases List.mem_map.mp hy with ⟨x, hx, rfl⟩
    rw [hz x hx]
    norm_num
  rw [hs, zero_div]

theorem below_threshold_never_transcribes_witness :
    (runStream initS [inpQuiet]).toOption.map (fun p => (p.1.accumulated, p.2))
      = some ([], []) :=
  below_threshold_never_transcribes [inpQuiet]
    (by
      intro w hw hl
      have hflat : (([inpQuiet].map CycleIn.new_audio).flatten) = List.replicate 8000 (0 : ℚ) := by
        rw [List.map_cons, List.map_nil, List.flatten_cons, List.flatten_nil, List.append_nil]
        rfl
      rw [hflat] at hw
      have hz : ∀ x ∈ w, x = (0 : ℚ) := by
        intro x hx
        exact List.eq_of_mem_replicate (hw.subset hx)
      rw [meanSqQ_of_all_zero w hz]
      norm_num [NOISE_THRESHOLD])

/-! ### Claim C2 -/

/-- C2 counterexample: the program's own callback stores a stream-clock
reading.  For a stream whose clock origin is wall time 1000, a two-word
fragment accepted at wall time 1000 stores `last_update = adcTime 1000 1000 =
0`; the very next check of the main loop, at wall time 1000 + 0.1, computes
`time.time() - last_update = 1000.1 > 3` and finalizes — although the elapsed
wall-clock silence is 0.1 s, far below the 3 s timeout (and beyond any
one-check-interval tolerance).  This refutes "no finalize occurs while the
elapsed silence is below the timeout". -/
theorem silence_check_cross_clock_counterexample :
    clear_callback ⟨"", 0⟩ "hello world" (adcTime 1000 1000)
        = ⟨"hello world", adcTime 1000 1000⟩ ∧
      runChecks ⟨"hello world", adcTime 1000 1000⟩ [1000 + 1 / 10]
        = (⟨"", adcTime 1000 1000⟩, ["hello world"]) ∧
      ((1000 + 1 / 10 : ℚ) - 1000 < SILENCE_TIMEOUT_CLEAR) := by
  refine ⟨?_, ?_, by norm_num [SILENCE_TIMEOUT_CLEAR]⟩
  · unfold clear_callback
    rw [if_pos ⟨by decide, by decide⟩]
  · exact runChecks_fires [1000 + 1 / 10] ⟨"hello world", adcTime 1000 1000⟩ (by decide)
      ⟨1000 + 1 / 10, by simp, by
        show (1000 + 1 / 10 : ℚ) - (1000 - 1000) > SILENCE_TIMEOUT_CLEAR
        norm_num [SILENCE_TIMEOUT_CLEAR]⟩

/-- ACTIVE state whose buffered audio is one full chunk of digital silence:
accumulated line `["hello"]`, last speech at time 0. -/
def stQuietFin : SState :=
  ⟨List.replicate 8000 0, List.replicate 8000 0, ["hello"], mkLine "t0" ["hello"], 0⟩

/-- Cycle at time 6 (past the 5 s streaming timeout) with no new audio. -/
def inpFin : CycleIn := ⟨[], 6, "t2", Except.ok []⟩

lemma replicate_zero_gate : has_speechB (List.replicate 8000 (0 : ℚ)) = false :=
  has_speechB_eq_false_of_meanSq_le _ (by
    rw [meanSqQ_of_all_zero _ (fun x hx => List.eq_of_mem_replicate hx)]
    norm_num [NOISE_THRESHOLD])

lemma fullCycle_stQuietFin :
    fullCycle stQuietFin inpFin
      = Except.ok (⟨[], [], [], "", 0⟩,
          [SEvent.sinkAppend (mkLine "t2" ["hello"])]) := by
  have h1 : CHUNK_SAMPLES ≤ (stQuietFin.buf ++ inpFin.new_audio).length := by
    show CHUNK_SAMPLES ≤ ((List.replicate 8000 (0 : ℚ)) ++ []).length
    rw [List.append_nil, List.length_replicate]
    norm_num [CHUNK_SAMPLES]
  have hctx : nextContext stQuietFin inpFin = List.replicate 8000 (0 : ℚ) := by
    show pushContext MAX_CONTEXT_SAMPLES (List.replicate 8000 (0 : ℚ)) [] = _
    rw [pushContext_no_trim _ _ _
      (by rw [List.append_nil, List.length_replicate]; norm_num [MAX_CONTEXT_SAMPLES])]
    rw [List.append_nil]
  have h2 : CHUNK_SAMPLES ≤ (nextContext stQuietFin inpFin).length := by
    rw [hctx, List.length_replicate]
    norm_num [CHUNK_SAMPLES]
  have h3 : has_speechB (recentWindow stQuietFin inpFin) = false := by
    have hrec : recentWindow stQuietFin inpFin = List.replicate 8000 (0 : ℚ) := by
      unfold recentWindow
      rw [hctx, List.length_replicate]
      rw [show 8000 - CHUNK_SAMPLES = 0 from by norm_num [CHUNK_SAMPLES]]
      exact List.drop_zero _
    rw [hrec]
    exact replicate_zero_gate
  have h4 : stQuietFin.accumulated ≠ [] ∧
      inpFin.now - stQuietFin.last_speech_time > SILENCE_TIMEOUT := by
    refine ⟨by decide, ?_⟩
    show (6 : ℚ) - 0 > SILENCE_TIMEOUT
    norm_num [SILENCE_TIMEOUT]
  rw [fullCycle_finalize stQuietFin inpFin h1 h2 h3 h4]
  have hdrop : (stQuietFin.buf ++ inpFin.new_audio).drop CHUNK_SAMPLES = [] := by
    show ((List.replicate 8000 (0 : ℚ)) ++ []).drop CHUNK_SAMPLES = []
    rw [List.append_nil,
      show CHUNK_SAMPLES = (List.replicate 8000 (0 : ℚ)).length from by
        rw [List.length_replicate]; rfl]
    exact List.drop_length _
  rw [hdrop]
  rfl

/-- C2 (corrected): the silence check still finalizes exactly once and clears
to IDLE, but two parts of the original claim fail on the code.
(1) whisper_clear's check loop (wall-clock instants `times`, one every
`time.sleep(0.1)`) compares `time.time()` against a `last_update` stored by
the callback from the *stream clock*: after a fragment accepted at wall time
`W` on a stream with clock origin `t0`, a check at wall time `t` fires exactly
when elapsed real silence plus the clock offset, `(t - W) + t0`, exceeds the
timeout — not when real silence does; while no check instant reaches that
bound nothing is emitted, and once one does the run emits the text exactly
once and clears `current_text`.  (2) live_transcribe_streaming's silence check
is not evaluated independently of audio arrival: a finalized line can be
appended only by a cycle that has a full audio chunk available in both the
processing and context buffers. -/
theorem silence_check_cross_clock (st : ClearState) (text : String) (t0 W : ℚ)
    (times : List ℚ) (sst : SState) (inp : CycleIn) (sst1 : SState)
    (sevs : List SEvent) (line : String)
    (htext : text ≠ "") (hwords : 2 ≤ (pySplit text).length) :
    clear_callback st text (adcTime t0 W) = ⟨text, adcTime t0 W⟩ ∧
    ((∀ t ∈ times, (t - W) + t0 ≤ SILENCE_TIMEOUT_CLEAR) →
        runChecks ⟨text, adcTime t0 W⟩ times = (⟨text, adcTime t0 W⟩, [])) ∧
    ((∃ t ∈ times, (t - W) + t0 > SILENCE_TIMEOUT_CLEAR) →
        runChecks ⟨text, adcTime t0 W⟩ times = (⟨"", adcTime t0 W⟩, [text])) ∧
    (fullCycle sst inp = Except.ok (sst1, sevs) → SEvent.sinkAppend line ∈ sevs →
        CHUNK_SAMPLES ≤ (sst.buf ++ inp.new_audio).length ∧
          CHUNK_SAMPLES ≤ (nextContext sst inp).length) := by
  refine ⟨?_, ?_, ?_, ?_⟩
  · unfold clear_callback
    rw [if_pos ⟨htext, hwords⟩]
  · intro h
    apply runChecks_no_fire
    intro t ht
    show t - (W - t0) ≤ SILENCE_TIMEOUT_CLEAR
    have := h t ht
    linarith
  · intro h
    rcases h with ⟨t, ht, hgt⟩
    apply runChecks_fires times ⟨text, adcTime t0 W⟩ htext
    refine ⟨t, ht, ?_⟩
    show t - (W - t0) > SILENCE_TIMEOUT_CLEAR
    linarith
  · intro hrun hmem
    by_cases h1 : CHUNK_SAMPLES ≤ (sst.buf ++ inp.new_audio).length
    · by_cases h2 : CHUNK_SAMPLES ≤ (nextContext sst inp).length
      · exact ⟨h1, h2⟩
      · rw [fullCycle_short_ctx sst inp h1 h2] at hrun
        injection hrun with h
        injection h with hst hevs
        subst hevs
        simp at hmem
    · rw [fullCycle_short_buf sst inp h1] at hrun
      injection hrun with h
      injection h with hst hevs
      subst hevs
      simp at hmem

theorem silence_check_cross_clock_witness :
    clear_callback ⟨"", 0⟩ "hello world" (adcTime 1000 1000)
        = ⟨"hello world", adcTime 1000 1000⟩ ∧
      runChecks ⟨"hello world", adcTime 1000 1000⟩ [1000 + 1 / 10]
        = (⟨"", adcTime 1000 1000⟩, ["hello world"]) ∧
      runChecks ⟨"hello world", adcTime 0 50⟩ [50 + 29 / 10]
        = (⟨"hello world", adcTime 0 50⟩, []) ∧
      (CHUNK_SAMPLES ≤ (stQuietFin.buf ++ inpFin.new_audio).length ∧
        CHUNK_SAMPLES ≤ (nextContext stQuietFin inpFin).length) :=
  ⟨(silence_check_cross_clock ⟨"", 0⟩ "hello world" 1000 1000 [1000 + 1 / 10]
      initS inpFin initS [] "" (by decide) (by decide)).1,
    (silence_check_cross_clock ⟨"", 0⟩ "hello world" 1000 1000 [1000 + 1 / 10]
        initS inpFin initS [] "" (by decide) (by decide)).2.2.1
      ⟨1000 + 1 / 10, by simp, by norm_num [SILENCE_TIMEOUT_CLEAR]⟩,
    (silence_check_cross_clock ⟨"", 0⟩ "hello world" 0 50 [50 + 29 / 10]
        initS inpFin initS [] "" (by decide) (by decide)).2.1
      (by
        intro t ht
        simp at ht
        subst ht
        norm_num [SILENCE_TIMEOUT_CLEAR]),
    (silence_check_cross_clock ⟨"", 0⟩ "hello world" 0 50 [50 + 29 / 10]
        stQuietFin inpFin ⟨[], [], [], "", 0⟩
        [SEvent.sinkAppend (mkLine "t2" ["hello"])] (mkLine "t2" ["hello"])
        (by decide) (by decide)).2.2.2
      fullCycle_stQuietFin (by simp)⟩

end Whisper
